import Mathlib

/-!
Verification of the pyflot chart model (src/pyflot/graph.py) against its
natural-language specification.

The embedding is shallow: Python values that can appear in the model are an
inductive type `Val`; Python dicts are insertion-ordered association lists
with the assignment semantics of `setKey` (an existing key is updated in
place, a new key is appended); Python float arithmetic is modelled exactly
over the rationals; a calendar date or datetime object is modelled by the
integer number of seconds that the platform conversion time.mktime applied
to its timetuple yields, since that is the only way the code ever inspects
such an object.  Operations that can raise a Python exception are modelled
with Option or with an explicit error field.  The cross-type comparisons of
Python 2 min and max are outside the model: the bar-width computation is
modelled only for numeric x values and returns `none` (a crash) otherwise.
-/

namespace PyFlot

/-- A Python value as it can appear in the chart model: an int, a float
(modelled as a rational), a string, a bool, a date or datetime object
(modelled by its mktime seconds), a list, or a dict (insertion-ordered
association list keyed by strings). -/
inductive Val where
  | int : Int → Val
  | float : ℚ → Val
  | str : String → Val
  | bool : Bool → Val
  | date : Int → Val
  | list : List Val → Val
  | obj : List (String × Val) → Val

/-- A Python dict with string keys, as an insertion-ordered association list. -/
abbrev Obj := List (String × Val)

/-- Dict lookup `d.get(k)`: the value at the first (hence only, for dicts
built by the code) occurrence of the key. -/
def getKey? : Obj → String → Option Val
  | [], _ => none
  | (k1, v1) :: rest, k => if k1 = k then some v1 else getKey? rest k

/-- Dict assignment `d[k] = v`: an existing key keeps its position and gets
the new value; a new key is appended at the end, as in a Python dict. -/
def setKey : Obj → String → Val → Obj
  | [], k, v => [(k, v)]
  | (k1, v1) :: rest, k, v =>
    if k1 = k then (k, v) :: rest else (k1, v1) :: setKey rest k v

/-- Shallow dict merge `d.update(u)`: assign every pair of `u` onto `d`,
in order. -/
def dictUpdate (d : Obj) (u : Obj) : Obj :=
  u.foldl (fun acc kv => setKey acc kv.1 kv.2) d

/-- The value the last occurrence of a key in an association list would
leave behind after `dictUpdate`. -/
def lookupLast : Obj → String → Option Val
  | [], _ => none
  | (k1, v1) :: rest, k =>
    match lookupLast rest k with
    | some v => some v
    | none => if k1 = k then some v1 else none

/-- Whether `type(v) is int` holds in Python. -/
def Val.isInt : Val → Bool
  | .int _ => true
  | _ => false

/-- Whether `isinstance(v, collections.Mapping)` holds: only dicts here. -/
def Val.isMapping : Val → Bool
  | .obj _ => true
  | _ => false

/-- Whether `isinstance(v, datetime.date)` holds (datetime is a subclass). -/
def Val.isDate : Val → Bool
  | .date _ => true
  | _ => false

/-- Whether the value is a plain Python number (an int or a float). -/
def Val.isNum : Val → Bool
  | .int _ => true
  | .float _ => true
  | _ => false

/-- Python falsiness `not v`: zero numbers, empty strings, False, and empty
containers are falsy; date objects are always truthy. -/
def Val.falsy : Val → Bool
  | .int n => n == 0
  | .float q => decide (q = 0)
  | .str s => s == ""
  | .bool b => !b
  | .date _ => false
  | .list xs => xs.isEmpty
  | .obj kvs => kvs.isEmpty

/-- Indexing `v[0]`: the first element of a list, the first character of a
non-empty string (as a one-character string); anything else raises. -/
def Val.item0 : Val → Option Val
  | .list (x :: _) => some x
  | .str s =>
    match s.toList with
    | c :: _ => some (.str (String.mk [c]))
    | [] => none
  | _ => none

/-- Iteration over `v`: list elements, string characters (as one-character
strings), dict keys; anything else raises TypeError. -/
def Val.elems : Val → Option (List Val)
  | .list xs => some xs
  | .str s => some (s.toList.map fun c => .str (String.mk [c]))
  | .obj kvs => some (kvs.map fun kv => .str kv.1)
  | _ => none

/-- Python `len(v)` for lists, strings and dicts; anything else raises. -/
def Val.lenOf : Val → Option Nat
  | .list xs => some xs.length
  | .str s => some s.length
  | .obj kvs => some kvs.length
  | _ => none

/-- Numeric reading of a value for arithmetic and comparison; a Python bool
is an int subclass, so True counts as 1 and False as 0.  Non-numeric values
yield `none`: the Python 2 cross-type orderings are outside the model. -/
def Val.toNum? : Val → Option ℚ
  | .int n => some (n : ℚ)
  | .float q => some q
  | .bool b => some (if b then 1 else 0)
  | _ => none

/-- Sequential map that stops at the first failure, the way a Python list
comprehension propagates an exception. -/
def mapO (f : α → Option β) : List α → Option (List β)
  | [] => some []
  | x :: xs =>
    match f x with
    | none => none
    | some y =>
      match mapO f xs with
      | none => none
      | some ys => some (y :: ys)

/-- The recursive dict merge `update(d, u)` of graph.py: for each key of
`u` in order, a dict value is merged recursively into `d.get(k)` with a
missing key read as an empty dict, and any other value is assigned onto
`d`.  When `d` is not a dict the loop body raises (AttributeError on
`d.get`, or TypeError on item assignment), modelled as `none`; an empty
`u` returns `d` unchanged whatever it is. -/
def update : Val → List (String × Val) → Option Val
  | d, [] => some d
  | d, (k, v) :: rest =>
    match v with
    | .obj o =>
      match d with
      | .obj dkvs =>
        match update ((getKey? dkvs k).getD (.obj [])) o with
        | some r => update (.obj (setKey dkvs k r)) rest
        | none => none
      | _ => none
    | _ =>
      match d with
      | .obj dkvs => update (.obj (setKey dkvs k v)) rest
      | _ => none
termination_by _ u => sizeOf u

/-- Modelled from the spec: the deep merge in the words of the Option
Resolver contract, for each key of the incoming mapping, if both the
existing and the incoming values are mappings they are merged recursively,
otherwise the incoming value replaces the existing one. -/
def specMergeObj : List (String × Val) → List (String × Val) → List (String × Val)
  | d, [] => d
  | d, (k, v) :: rest =>
    match getKey? d k, v with
    | some (.obj dk), .obj uk => specMergeObj (setKey d k (Val.obj (specMergeObj dk uk))) rest
    | _, _ => specMergeObj (setKey d k v) rest
termination_by _ u => sizeOf u

/-- Whether the top-level keys of an association list are pairwise
distinct, as the keys of a Python dict always are. -/
def keysNodup : List (String × Val) → Bool
  | [] => true
  | (k, _) :: rest => !(rest.any fun kv => kv.1 == k) && keysNodup rest

/-- The region where the merge of the code agrees with the spec merge: no
incoming dict value may meet an existing non-dict value, and an incoming
dict value placed at an absent key must have duplicate-free keys (true for
every value that came from a Python dict literal). -/
def updCompat : List (String × Val) → List (String × Val) → Bool
  | _, [] => true
  | d, (k, v) :: rest =>
    match v with
    | .obj o =>
      match getKey? d k with
      | some (.obj dk) =>
        updCompat dk o && updCompat (setKey d k (.obj (specMergeObj dk o))) rest
      | none =>
        updCompat [] o && keysNodup o && updCompat (setKey d k (.obj o)) rest
      | some _ => false
    | _ => updCompat (setKey d k v) rest
termination_by _ u => sizeOf u

/-- Compatibility of a whole chain of option layers with the spec merge,
threading the merged accumulator through. -/
def foldCompat : List (String × Val) → List Obj → Bool
  | _, [] => true
  | d, l :: ls => updCompat d l && foldCompat (specMergeObj d l) ls

/-- The option-resolution loop of `Flot.__init__`: starting from an empty
dict, merge each option layer of the reversed method resolution order in
turn with `update`. -/
def mro_options_fold (layers : List Obj) : Option Val :=
  layers.foldlM (fun acc layer => update acc layer) (Val.obj [])

/-- The state of a `Flot` instance: the ordered series registry
`self._series` (each entry a dict) and the global options `self._options`. -/
structure Flot where
  series' : List Obj
  options' : Obj

/-- Construction of a `Flot` whose class hierarchy contributes the given
ordered list of `options` class attributes (most general base first), as
collected by the reversed-MRO loop of `__init__`. -/
def FlotInit (layers : List Obj) : Option Flot :=
  match mro_options_fold layers with
  | some (.obj o) => some ⟨[], o⟩
  | _ => none

/-- The exceptions `add_series` can raise: the two domain errors of the
module, plus a catch-all for the unhandled Python runtime errors
(AttributeError, ValueError, TypeError) the unchecked paths can hit. -/
inductive AddErr where
  | missingData
  | duplicateLabel
  | runtimeError
deriving DecidableEq

/-- Result of a call to `add_series`: the state of the instance after the
call, and the exception raised if any.  Mutations performed before a raise
persist, as they do on the Python object. -/
structure AddResult where
  state : Flot
  error : Option AddErr

/-- The recognized line types, in the order the code iterates them. -/
def LINE_TYPES : List String := ["bars", "lines", "points"]

/-- The duplicate-label membership test of `add_series`: the label of each
registered entry is read with a default of None, and the probe string is
compared against every element; `==` between a Python string and an absent
or non-string label is False, so only an equal string label matches. -/
def hasLabel (ss : List Obj) (l : String) : Bool :=
  ss.any fun e =>
    match getKey? e "label" with
    | some (.str s) => s == l
    | _ => false

/-- Whether a label argument gets past the duplicate check of `add_series`
without raising: either absent, or falsy (empty), or not yet in use. -/
def labelOK (g : Flot) : Option String → Bool
  | none => true
  | some l => l == "" || !hasLabel g.series' l

/-- One step of the time-series comprehension: destructure a point into
`(ts, val)` and build `(int(time.mktime(ts.timetuple()) * 1000), val)`.
The timetuple has whole-second resolution, so the product is exact.  Any
point that is not a two-element list headed by a date raises (unpacking
error or AttributeError on timetuple), modelled as `none`. -/
def convertPoint : Val → Option Val
  | .list [.date s, y] => some (.list [.int (s * 1000), y])
  | _ => none

/-- Total companion of `convertPoint` used to state what the conversion
produces on well-formed temporal points. -/
def convP : Val → Val
  | .list [.date s, y] => .list [.int (s * 1000), y]
  | v => v

/-- The data inspection step of `add_series`: only a value of exact type
list is examined; if the x component of its first point is a date object
the whole list is converted and the temporal flag is reported, otherwise
the data passes through untouched. -/
def normalizeData : Val → Option (Val × Bool)
  | .list pts =>
    match pts with
    | [] => none
    | p0 :: _ =>
      match Val.item0 p0 with
      | none => none
      | some t =>
        if t.isDate then
          match mapO convertPoint pts with
          | none => none
          | some pts2 => some (.list pts2, true)
        else some (.list pts, false)
  | v => some (v, false)

/-- One iteration of the line-type loop of `add_series`: when the line
type is present among the keyword arguments, store its value verbatim when
it is a dict and the dict with show set to True otherwise. -/
def ltStep (kwargs : Obj) (acc : Obj) (lt : String) : Obj :=
  match getKey? kwargs lt with
  | none => acc
  | some v =>
    match v with
    | .obj o => setKey acc lt (.obj o)
    | _ => setKey acc lt (.obj [("show", .bool true)])

/-- The line-type loop of `add_series`, over the three recognized line
types in order. -/
def applyLineTypes (kwargs : Obj) (e : Obj) : Obj :=
  LINE_TYPES.foldl (ltStep kwargs) e

/-- The series entry as appended by `add_series`: the data-and-label dict,
then the line-type hints, then the shallow merge of the per-series options
when they are of exact type dict (anything else is silently ignored). -/
def finalEntry (entry0 : Obj) (options : Option Val) (kwargs : Obj) : Obj :=
  let e1 := applyLineTypes kwargs entry0
  match options with
  | some (.obj o) => dictUpdate e1 o
  | _ => e1

/-- The tail of `add_series` after the duplicate-label check: build the
final entry and append it to the registry. -/
def finishAdd (g : Flot) (entry0 : Obj) (options : Option Val) (kwargs : Obj) : AddResult :=
  ⟨⟨g.series' ++ [finalEntry entry0 options kwargs], g.options'⟩, none⟩

/-- The options value assigned by the temporal branch. -/
def timeOptVal : Val := .obj [("mode", .str "time")]

/-- `Flot.add_series(series, label, options, **kwargs)`.  In order: the
missing-data check (only exact ints are exempt from the falsiness test);
the time-series detection and conversion with the global xaxis option
assignment; the duplicate-label check; the entry construction (data,
label, line-type hints, per-series options) and the append. -/
def add_series (g : Flot) (series : Val) (label : Option String)
    (options : Option Val) (kwargs : Obj) : AddResult :=
  if !series.isInt && series.falsy then ⟨g, some .missingData⟩
  else
    match normalizeData series with
    | none => ⟨g, some .runtimeError⟩
    | some (series2, temporal) =>
      let opts2 := if temporal then setKey g.options' "xaxis" timeOptVal else g.options'
      let g2 : Flot := ⟨g.series', opts2⟩
      match label with
      | some l =>
        if l = "" then finishAdd g2 [("data", series2)] options kwargs
        else if hasLabel g.series' l then ⟨g2, some .duplicateLabel⟩
        else finishAdd g2 (setKey [("data", series2)] "label" (.str l)) options kwargs
      | none => finishAdd g2 [("data", series2)] options kwargs

/-- `Flot.add_series_type(line_type, series, label, **kwargs)`: delegates
to `add_series` with the single keyword argument mapping the line type to
True; the options parameter is not passed and the extra keyword arguments
of the call are dropped. -/
def add_series_type (g : Flot) (line_type : String) (series : Val)
    (label : Option String) (kwargs : Obj) : AddResult :=
  add_series g series label none [(line_type, .bool true)]

/-- Python str.split on a one-character separator, over the character list
of the string: consecutive separators yield empty components and the empty
string splits into one empty component. -/
def splitChars (sep : Char) : List Char → List (List Char)
  | [] => [[]]
  | c :: rest =>
    let r := splitChars sep rest
    if c = sep then [] :: r
    else
      match r with
      | h :: t => (c :: h) :: t
      | [] => [[c]]

/-- The split `value.split(sep)` as a list of strings. -/
def strSplit (sep : Char) (s : String) : List String :=
  (splitChars sep s.toList).map fun cs => String.mk cs

/-- The test `value.startswith(p)` over character lists. -/
def strStartsWith (p s : String) : Bool :=
  p.toList.isPrefixOf s.toList

/-- The slice `value[n:]` over character lists. -/
def strDropN (n : Nat) (s : String) : String :=
  String.mk (s.toList.drop n)

/-- The dispatch of `Flot.__getattr__` for the add shortcuts: a name that
starts with add_ and whose second underscore-separated component is a
recognized line type yields the partial application of `add_series_type`
to the suffix after add_; anything else raises AttributeError. -/
def getattr_line_type (value : String) : Option String :=
  if strStartsWith "add_" value then
    match (strSplit '_' value).get? 1 with
    | some t => if LINE_TYPES.contains t then some (strDropN 4 value) else none
    | none => none
  else none

/-- `Flot.calculate_bar_width`: slices is the largest point count over all
registered series, the x values of all points of all series are collected,
and the result is their range divided by slices, in exact arithmetic.  An
empty registry (max of an empty list), an entry whose data has no length
or cannot be iterated, a point that cannot be indexed, an empty x
collection (min of an empty list), or a non-numeric x all raise, modelled
as `none`. -/
def calculate_bar_width (g : Flot) : Option ℚ :=
  match mapO (fun e => getKey? e "data") g.series' with
  | none => none
  | some datas =>
    match mapO Val.lenOf datas with
    | none => none
    | some lens =>
      match lens with
      | [] => none
      | l0 :: lrest =>
        let slices : Nat := lrest.foldl max l0
        match mapO Val.elems datas with
        | none => none
        | some elemss =>
          match mapO Val.item0 elemss.flatten with
          | none => none
          | some xs0 =>
            match mapO Val.toNum? xs0 with
            | none => none
            | some xs =>
              match xs with
              | [] => none
              | x0 :: xrest =>
                let xmin := xrest.foldl min x0
                let xmax := xrest.foldl max x0
                some ((xmax - xmin) / (slices : ℚ))

/-- `Flot.prepare_series`: an entry that carries a bars key triggers the
bar-width computation; a non-zero width is assigned into the bars dict
(assignment into a non-dict bars value raises); a zero width leaves the
entry untouched. -/
def prepare_series (g : Flot) (s : Obj) : Option Obj :=
  match getKey? s "bars" with
  | none => some s
  | some bv =>
    match calculate_bar_width g with
    | none => none
    | some w =>
      if w = 0 then some s
      else
        match bv with
        | .obj b => some (setKey s "bars" (.obj (setKey b "barWidth" (.float w))))
        | _ => none

/-- The `series` property: every registered entry passed through
`prepare_series`, in registry order. -/
def seriesView (g : Flot) : Option (List Obj) :=
  mapO (prepare_series g) g.series'

/-- The injection `prepare_series` performs on an entry when the computed
width is the non-zero value `w`: entries without a bars dict pass through. -/
def injectW (w : ℚ) (e : Obj) : Obj :=
  match getKey? e "bars" with
  | some (.obj b) => setKey e "bars" (.obj (setKey b "barWidth" (.float w)))
  | _ => e

/-- The mode registered under the xaxis key of an options dict, if any. -/
def xaxisMode (o : Obj) : Option Val :=
  match getKey? o "xaxis" with
  | some (.obj x) => getKey? x "mode"
  | _ => none

/-- The plain show hint of a bar series. -/
def barsShow : Val := .obj [("show", .bool true)]

/-- Data of a bar series whose x values are all equal, so that the
computed bar width is zero. -/
def dataZero : Val := .list [.list [.int 0, .int 1], .list [.int 0, .int 2]]

/-- A model holding one bar series with all-identical x values. -/
def gBarZero : Flot := ⟨[[("data", dataZero), ("bars", barsShow)]], []⟩

/-- The three-point bar series of the spec example. -/
def dataEx1 : Val := .list [.list [.int 0, .int 1], .list [.int 5, .int 2], .list [.int 10, .int 3]]

/-- The two-point bar series of the spec example. -/
def dataEx2 : Val := .list [.list [.int 0, .int 1], .list [.int 10, .int 2]]

/-- The two-bar-series model of the spec example. -/
def gBarEx : Flot := ⟨[[("data", dataEx1), ("bars", barsShow)], [("data", dataEx2), ("bars", barsShow)]], []⟩

/-- The two option layers of the spec merge example: the base layer sets
grid show, the derived layer sets grid hoverable and the xaxis mode. -/
def exLayers : List Obj :=
  [[("grid", .obj [("show", .bool true)])],
    [("grid", .obj [("hoverable", .bool true)]), ("xaxis", .obj [("mode", .str "time")])]]

/-! Basic laws of the dict operations. -/

theorem getKey?_setKey_self (d : Obj) (k : String) (v : Val) :
    getKey? (setKey d k v) k = some v := by
  induction d with
  | nil => simp [setKey, getKey?]
  | cons kv rest ih =>
    obtain ⟨k1, v1⟩ := kv
    by_cases h : k1 = k <;> simp [setKey, getKey?, h, ih]

theorem getKey?_setKey_other (d : Obj) (k k' : String) (v : Val) (h : k' ≠ k) :
    getKey? (setKey d k v) k' = getKey? d k' := by
  induction d with
  | nil => simp [setKey, getKey?, Ne.symm h]
  | cons kv rest ih =>
    obtain ⟨k1, v1⟩ := kv
    by_cases h1 : k1 = k
    · subst h1
      simp [setKey, getKey?, Ne.symm h]
    · by_cases h2 : k1 = k' <;> simp [setKey, getKey?, h, h1, h2, ih]

theorem setKey_absent (d : Obj) (k : String) (v : Val) (h : getKey? d k = none) :
    setKey d k v = d ++ [(k, v)] := by
  induction d with
  | nil => simp [setKey]
  | cons kv rest ih =>
    obtain ⟨k1, v1⟩ := kv
    by_cases h1 : k1 = k
    · simp [getKey?, h1] at h
    · simp [getKey?, h1] at h
      simp [setKey, h1, ih h]

theorem getKey?_append_of_absent (d1 d2 : Obj) (k : String)
    (h : getKey? d1 k = none) : getKey? (d1 ++ d2) k = getKey? d2 k := by
  induction d1 with
  | nil => simp
  | cons kv rest ih =>
    obtain ⟨k1, v1⟩ := kv
    by_cases h1 : k1 = k
    · simp [getKey?, h1] at h
    · simp [getKey?, h1] at h
      simp [getKey?, h1, ih h]

theorem getKey?_dictUpdate (e : Obj) (o : Obj) (k : String) :
    getKey? (dictUpdate e o) k =
      match lookupLast o k with
      | some v => some v
      | none => getKey? e k := by
  induction o generalizing e with
  | nil => simp [dictUpdate, lookupLast]
  | cons kv rest ih =>
    obtain ⟨k1, v1⟩ := kv
    have step : dictUpdate e ((k1, v1) :: rest) = dictUpdate (setKey e k1 v1) rest := by
      simp [dictUpdate]
    rw [step, ih]
    cases hrest : lookupLast rest k with
    | some v => simp [lookupLast, hrest]
    | none =>
      by_cases h1 : k1 = k
      · subst h1
        simp [lookupLast, hrest, getKey?_setKey_self]
      · simp [lookupLast, hrest, h1, getKey?_setKey_other e k1 k v1 (Ne.symm h1)]

/-! Laws of the sequential option-valued map. -/

theorem mapO_eq_map (f : α → Option β) (gfun : α → β) (l : List α)
    (h : ∀ x ∈ l, f x = some (gfun x)) : mapO f l = some (l.map gfun) := by
  induction l with
  | nil => simp [mapO]
  | cons x xs ih =>
    have hx : f x = some (gfun x) := h x (by simp)
    have hxs : mapO f xs = some (xs.map gfun) := ih fun y hy => h y (by simp [hy])
    simp [mapO, hx, hxs]

theorem mapO_append (f : α → Option β) (l1 l2 : List α) :
    mapO f (l1 ++ l2) = (mapO f l1).bind fun v1 => (mapO f l2).map fun v2 => v1 ++ v2 := by
  induction l1 with
  | nil =>
    cases h : mapO f l2 <;> simp [mapO, h]
  | cons x xs ih =>
    simp only [List.cons_append, mapO, List.append_eq]
    rw [ih]
    cases f x <;> cases mapO f xs <;> cases mapO f l2 <;> simp

/-! Laws of the line-type loop. -/

theorem ltStep_getKey_other (kwargs acc : Obj) (lt k : String) (h : k ≠ lt) :
    getKey? (ltStep kwargs acc lt) k = getKey? acc k := by
  cases hv : getKey? kwargs lt with
  | none => simp [ltStep, hv]
  | some v => cases v <;> simp [ltStep, hv, getKey?_setKey_other _ _ _ _ h]

theorem applyLineTypes_getKey_other (kwargs e : Obj) (k : String)
    (hb : k ≠ "bars") (hl : k ≠ "lines") (hp : k ≠ "points") :
    getKey? (applyLineTypes kwargs e) k = getKey? e k := by
  simp only [applyLineTypes, LINE_TYPES, List.foldl_cons, List.foldl_nil]
  rw [ltStep_getKey_other _ _ _ _ hp, ltStep_getKey_other _ _ _ _ hl,
    ltStep_getKey_other _ _ _ _ hb]

theorem applyLineTypes_bars_none (kwargs e : Obj)
    (hk : getKey? kwargs "bars" = none) (he : getKey? e "bars" = none) :
    getKey? (applyLineTypes kwargs e) "bars" = none := by
  simp only [applyLineTypes, LINE_TYPES, List.foldl_cons, List.foldl_nil]
  rw [ltStep_getKey_other _ _ _ _ (by decide), ltStep_getKey_other _ _ _ _ (by decide)]
  simp [ltStep, hk, he]

/-- C3: for every model and every non-empty label already carried by some
stored series, calling add_series again with that label (with data that
passes the earlier missing-data and normalization steps) raises
DuplicateLabelError, and the series registry after the call is exactly the
registry before the call, so the second series is not appended and the
first series with that label is retained. -/
theorem C3_duplicate_label (g : Flot) (series : Val) (l : String)
    (options : Option Val) (kwargs : Obj)
    (hl : l ≠ "") (hdup : hasLabel g.series' l = true)
    (hdata : (!series.isInt && series.falsy) = false)
    (hnorm : (normalizeData series).isSome = true) :
    (add_series g series (some l) options kwargs).error = some .duplicateLabel ∧
    (add_series g series (some l) options kwargs).state.series' = g.series' := by
  obtain ⟨p, hn⟩ := Option.isSome_iff_exists.mp hnorm
  obtain ⟨s2, tmp⟩ := p
  simp [add_series, hdata, hn, hl, hdup]

/-- Witness for C3 at a concrete model: a registry holding one series
labelled a, and a second add_series call with the same label. -/
theorem C3_witness :
    (add_series ⟨[[("data", .int 1), ("label", .str "a")]], []⟩ (.int 2) (some "a") none []).error
        = some .duplicateLabel ∧
    (add_series ⟨[[("data", .int 1), ("label", .str "a")]], []⟩ (.int 2) (some "a") none []).state.series'
        = [[("data", .int 1), ("label", .str "a")]] :=
  C3_duplicate_label _ _ _ _ _ (by decide) (by rfl) (by rfl) (by rfl)

/-- C6 counterexample: the claim says a falsy non-int scalar such as the
float 0.0 never raises MissingDataError, but `type(series) is not int`
only exempts exact ints, so adding the float 0.0 raises it. -/
theorem C6_counterexample :
    (add_series ⟨[], []⟩ (.float 0) none none []).error = some .missingData := by
  rfl

/-- C6 as amended: only int scalars are exempt from the missing-data
check; add_series raises MissingDataError exactly when the data argument
is not an exact int and is falsy, so every int scalar (including 0) never
raises it, while falsy non-int scalars such as the float 0.0 do, as does
every empty sequence. -/
theorem C6_missing_data_iff (g : Flot) (series : Val) (label : Option String)
    (options : Option Val) (kwargs : Obj) :
    (add_series g series label options kwargs).error = some .missingData ↔
      (series.isInt = false ∧ series.falsy = true) := by
  constructor
  · intro he
    by_cases h : (!series.isInt && series.falsy) = true
    · simpa [Bool.and_eq_true, Bool.not_eq_true'] using h
    · exfalso
      have h' : (!series.isInt && series.falsy) = false := by
        revert h; cases (!series.isInt && series.falsy) <;> simp
      rw [add_series] at he
      simp only [h', Bool.false_eq_true, if_false] at he
      cases hn : normalizeData series with
      | none => simp [hn] at he
      | some p =>
        obtain ⟨s2, tmp⟩ := p
        cases label with
        | none => simp [hn, finishAdd] at he
        | some l =>
          by_cases hle : l = ""
          · simp [hn, hle, finishAdd] at he
          · by_cases hdup : hasLabel g.series' l = true
            · simp [hn, hle, hdup] at he
            · simp [hn, hle, hdup, finishAdd] at he
  · intro ⟨h1, h2⟩
    simp [add_series, h1, h2]

/-- C8: calling add_series with an empty non-scalar data value (an empty
list, dict or string) raises MissingDataError and leaves the whole state,
in particular the series registry, exactly as it was. -/
theorem C8_empty_raises (g : Flot) (label : Option String) (options : Option Val)
    (kwargs : Obj) (series : Val)
    (h : series = .list [] ∨ series = .obj [] ∨ series = .str "") :
    add_series g series label options kwargs = ⟨g, some .missingData⟩ := by
  rcases h with h | h | h <;> subst h <;> rfl

/-- Witness for C8 at the empty list on an empty model. -/
theorem C8_witness :
    add_series ⟨[], []⟩ (.list []) none none [] = ⟨⟨[], []⟩, some .missingData⟩ :=
  C8_empty_raises _ _ _ _ _ (Or.inl rfl)

/-! Normalization of temporal and numeric data. -/

theorem getLast?_snoc (l : List α) (a : α) : (l ++ [a]).getLast? = some a := by
  induction l with
  | nil => rfl
  | cons x xs ih =>
    rw [List.cons_append, List.getLast?_cons]
    simpa [List.getLastD_eq_getLast?] using ih

theorem normalizeData_temporal (pts : List Val) (hne : pts ≠ [])
    (hp : ∀ p ∈ pts, ∃ s y, p = Val.list [Val.date s, y]) :
    normalizeData (.list pts) = some (.list (pts.map convP), true) := by
  obtain ⟨p0, rest, rfl⟩ : ∃ p0 rest, pts = p0 :: rest := by
    cases pts with
    | nil => exact absurd rfl hne
    | cons a l => exact ⟨a, l, rfl⟩
  obtain ⟨s, y, hp0⟩ := hp p0 (by simp)
  have hm : mapO convertPoint (p0 :: rest) = some ((p0 :: rest).map convP) := by
    refine mapO_eq_map _ _ _ fun p hpm => ?_
    obtain ⟨s2, y2, rfl⟩ := hp p hpm
    rfl
  subst hp0
  simp [normalizeData, Val.item0, Val.isDate, hm]

theorem normalizeData_nontemporal (p0 : Val) (rest : List Val) (t : Val)
    (ht : Val.item0 p0 = some t) (htd : t.isDate = false) :
    normalizeData (.list (p0 :: rest)) = some (.list (p0 :: rest), false) := by
  simp [normalizeData, ht, htd]

/-- C5 counterexample: the claim says a key already present under
options.xaxis, such as xaxis.min, survives the addition of a temporal
series; the code assigns a fresh dict to options of xaxis, so min is gone
after the call. -/
theorem C5_counterexample :
    (add_series ⟨[], [("xaxis", .obj [("min", .int 0)])]⟩
        (.list [.list [.date 0, .int 1]]) none none []).state.options'
      = [("xaxis", .obj [("mode", .str "time")])] ∧
    getKey? [("mode", Val.str "time")] "min" = none :=
  ⟨rfl, rfl⟩

/-- C5 as amended: adding a temporal series replaces the whole value of
the options key xaxis with the single-entry dict mode equal to time,
discarding any sub-keys previously stored under xaxis, and leaves every
other top-level options key unchanged. -/
theorem C5_temporal_options (g : Flot) (pts : List Val) (label : Option String)
    (options : Option Val) (kwargs : Obj)
    (hne : pts ≠ []) (hp : ∀ p ∈ pts, ∃ s y, p = Val.list [Val.date s, y]) :
    (add_series g (.list pts) label options kwargs).state.options'
        = setKey g.options' "xaxis" timeOptVal ∧
    ∀ k, k ≠ "xaxis" →
      getKey? (add_series g (.list pts) label options kwargs).state.options' k
        = getKey? g.options' k := by
  have hn := normalizeData_temporal pts hne hp
  have hfalsy : Val.falsy (.list pts) = false := by
    cases pts with
    | nil => exact absurd rfl hne
    | cons a l => simp [Val.falsy]
  have h1 : (add_series g (.list pts) label options kwargs).state.options'
      = setKey g.options' "xaxis" timeOptVal := by
    cases label with
    | none => simp [add_series, Val.isInt, hfalsy, hn, finishAdd]
    | some l =>
      by_cases hle : l = ""
      · simp [add_series, Val.isInt, hfalsy, hn, hle, finishAdd]
      · by_cases hdup : hasLabel g.series' l
        · simp [add_series, Val.isInt, hfalsy, hn, hle, hdup, finishAdd]
        · simp [add_series, Val.isInt, hfalsy, hn, hle, hdup, finishAdd]
  exact ⟨h1, fun k hk => by rw [h1, getKey?_setKey_other _ _ _ _ hk]⟩

/-- Witness for C5 at a model whose options carry both an xaxis dict with
a min key and an unrelated color key: after adding a temporal series the
xaxis value is the fresh time dict and color is untouched. -/
theorem C5_witness :
    (add_series ⟨[], [("xaxis", .obj [("min", .int 0)]), ("color", .int 3)]⟩
        (.list [.list [.date 1, .int 2]]) none none []).state.options'
      = [("xaxis", timeOptVal), ("color", .int 3)] ∧
    getKey? ((add_series ⟨[], [("xaxis", .obj [("min", .int 0)]), ("color", .int 3)]⟩
        (.list [.list [.date 1, .int 2]]) none none []).state.options') "color"
      = some (.int 3) := by
  have h := C5_temporal_options ⟨[], [("xaxis", .obj [("min", .int 0)]), ("color", .int 3)]⟩
    [.list [.date 1, .int 2]] none none [] (by simp)
    (by
      intro p hpm
      simp at hpm
      exact ⟨1, .int 2, hpm⟩)
  refine ⟨by rw [h.1]; rfl, by rw [h.2 "color" (by decide)]; rfl⟩

/-! The convenience shortcuts. -/

theorem ltStep_bool_show (t lt : String) (acc : Obj) :
    ltStep [(t, .bool true)] acc lt = ltStep [(t, .obj [("show", .bool true)])] acc lt := by
  by_cases h : t = lt <;> simp [ltStep, getKey?, h]

theorem applyLineTypes_bool_show (t : String) (e : Obj) :
    applyLineTypes [(t, .bool true)] e = applyLineTypes [(t, .obj [("show", .bool true)])] e := by
  simp only [applyLineTypes, LINE_TYPES, List.foldl_cons, List.foldl_nil, ltStep_bool_show]

theorem add_series_kwargs_congr (g : Flot) (series : Val) (label : Option String)
    (options : Option Val) (k1 k2 : Obj)
    (h : ∀ e, applyLineTypes k1 e = applyLineTypes k2 e) :
    add_series g series label options k1 = add_series g series label options k2 := by
  rw [add_series, add_series]
  cases hn : normalizeData series with
  | none => rfl
  | some p =>
    obtain ⟨s2, tmp⟩ := p
    cases label with
    | none => simp [finishAdd, finalEntry, h]
    | some l =>
      by_cases hle : l = "" <;> by_cases hdup : hasLabel g.series' l <;>
        simp [hle, hdup, finishAdd, finalEntry, h]

/-- C7 counterexample: the claim says a richer mapping supplied for the
line type of a convenience method is stored verbatim instead of show set
to True; but `add_series_type` drops its extra keyword arguments and
always forwards True, so the stored bars hint is the plain show dict, not
the supplied mapping. -/
theorem C7_counterexample :
    (add_series_type ⟨[], []⟩ "bars" (.list [.list [.int 0, .int 1]]) none
        [("bars", .obj [("show", .bool true), ("barWidth", .int 5)])]).state.series'
      = [[("data", .list [.list [.int 0, .int 1]]), ("bars", .obj [("show", .bool true)])]] ∧
    Val.obj [("show", Val.bool true)] ≠ Val.obj [("show", Val.bool true), ("barWidth", Val.int 5)] :=
  ⟨rfl, by simp⟩

/-- C7 as amended: for each recognized line type t, the attribute add_t
dispatches to `add_series_type`, and that call always equals the general
add_series call with the hint for t set to the dict show equal to True; a
richer mapping supplied by the caller for t, like every other extra
keyword argument of the convenience call, is dropped. -/
theorem C7_shortcut (t : String) (g : Flot) (series : Val)
    (label : Option String) (kwargs : Obj) (ht : t ∈ LINE_TYPES) :
    getattr_line_type ("add_" ++ t) = some t ∧
    add_series_type g t series label kwargs
      = add_series g series label none [(t, .obj [("show", .bool true)])] := by
  constructor
  · have ht' : t = "bars" ∨ t = "lines" ∨ t = "points" := by simpa [LINE_TYPES] using ht
    rcases ht' with rfl | rfl | rfl <;> rfl
  · rw [add_series_type]
    exact add_series_kwargs_congr _ _ _ _ _ _ (applyLineTypes_bool_show t)

/-- Witness for C7 at the bars shortcut on a scalar series. -/
theorem C7_witness :
    getattr_line_type "add_bars" = some "bars" ∧
    add_series_type ⟨[], []⟩ "bars" (.int 5) none []
      = add_series ⟨[], []⟩ (.int 5) none none [("bars", .obj [("show", .bool true)])] :=
  C7_shortcut "bars" ⟨[], []⟩ (.int 5) none [] (by decide)

/-! The per-series options merge. -/

theorem finishAdd_non_dict (g : Flot) (entry0 kwargs : Obj) (v : Val)
    (hv : v.isMapping = false) :
    finishAdd g entry0 (some v) kwargs = finishAdd g entry0 none kwargs := by
  cases v <;> first
    | rfl
    | simp [Val.isMapping] at hv

/-- C10: the per-series options dict is shallow-merged onto the entry
last, so any of its keys, in particular data, label, bars, lines and
points, silently overwrites the field already stored under that key; and
an options argument that is not of exact type dict is silently ignored,
the call behaving exactly as if no options were passed. -/
theorem C10_options_merge (g : Flot) (series : Val) (label : Option String)
    (kwargs : Obj) (v : Val) (o : Obj) (k : String) (x : Val)
    (hv : v.isMapping = false)
    (hsucc : (add_series g series label (some (.obj o)) kwargs).error = none)
    (hk : lookupLast o k = some x) :
    add_series g series label (some v) kwargs = add_series g series label none kwargs ∧
    ((add_series g series label (some (.obj o)) kwargs).state.series'.getLast?.bind
        fun e => getKey? e k) = some x := by
  constructor
  · rw [add_series, add_series]
    cases hn : normalizeData series with
    | none => rfl
    | some p =>
      obtain ⟨s2, tmp⟩ := p
      cases label with
      | none => simp [finishAdd_non_dict _ _ _ _ hv]
      | some l =>
        by_cases hle : l = "" <;> by_cases hdup : hasLabel g.series' l <;>
          simp [hle, hdup, finishAdd_non_dict _ _ _ _ hv]
  · have hlast : ∀ e2, getKey? (dictUpdate e2 o) k = some x := fun e2 => by
      rw [getKey?_dictUpdate, hk]
    rw [add_series] at hsucc ⊢
    by_cases hmiss : (!series.isInt && series.falsy) = true
    · simp [hmiss] at hsucc
    · have hmiss' : (!series.isInt && series.falsy) = false := by
        revert hmiss; cases (!series.isInt && series.falsy) <;> simp
      simp only [hmiss', Bool.false_eq_true, if_false] at hsucc ⊢
      cases hn : normalizeData series with
      | none => simp [hn] at hsucc
      | some p =>
        obtain ⟨s2, tmp⟩ := p
        cases label with
        | none => simp [hn, finishAdd, finalEntry, getLast?_snoc, hlast]
        | some l =>
          by_cases hle : l = ""
          · simp [hn, hle, finishAdd, finalEntry, getLast?_snoc, hlast]
          · by_cases hdup : hasLabel g.series' l
            · simp [hn, hle, hdup] at hsucc
            · simp [hn, hle, hdup, finishAdd, finalEntry, getLast?_snoc, hlast]

/-- Witness for C10: options data key replaces the stored data of a scalar
series, and a non-dict options argument is ignored. -/
theorem C10_witness :
    add_series ⟨[], []⟩ (.int 1) none (some (.int 7)) []
        = add_series ⟨[], []⟩ (.int 1) none none [] ∧
    ((add_series ⟨[], []⟩ (.int 1) none (some (.obj [("data", .str "X")])) []).state.series'.getLast?.bind
        fun e => getKey? e "data") = some (.str "X") :=
  C10_options_merge ⟨[], []⟩ (.int 1) none [] (.int 7) [("data", .str "X")] "data" (.str "X")
    (by rfl) (by rfl) (by rfl)

/-! The shape of a successful add_series call. -/

theorem add_series_success (g : Flot) (series : Val) (label : Option String)
    (options : Option Val) (kwargs : Obj) (series2 : Val) (temporal : Bool)
    (hfalsy : (!series.isInt && series.falsy) = false)
    (hn : normalizeData series = some (series2, temporal))
    (hlab : labelOK g label = true) :
    ∃ entry0,
      getKey? entry0 "data" = some series2 ∧
      getKey? entry0 "bars" = none ∧
      add_series g series label options kwargs =
        ⟨⟨g.series' ++ [finalEntry entry0 options kwargs],
          if temporal then setKey g.options' "xaxis" timeOptVal else g.options'⟩, none⟩ := by
  cases label with
  | none =>
    refine ⟨[("data", series2)], rfl, rfl, ?_⟩
    simp [add_series, hfalsy, hn, finishAdd]
  | some l =>
    by_cases hle : l = ""
    · refine ⟨[("data", series2)], rfl, rfl, ?_⟩
      simp [add_series, hfalsy, hn, hle, finishAdd]
    · have hdup : hasLabel g.series' l = false := by
        simp only [labelOK, Bool.or_eq_true, beq_iff_eq, Bool.not_eq_true'] at hlab
        rcases hlab with he | hf
        · exact absurd he hle
        · exact hf
      refine ⟨setKey [("data", series2)] "label" (.str l), by rfl, by rfl, ?_⟩
      simp [add_series, hfalsy, hn, hle, hdup, finishAdd]

theorem finalEntry_data_no_options (entry0 kwargs : Obj) (dv : Val)
    (hd : getKey? entry0 "data" = some dv) :
    getKey? (finalEntry entry0 none kwargs) "data" = some dv := by
  simpa [finalEntry,
    applyLineTypes_getKey_other kwargs entry0 "data" (by decide) (by decide) (by decide)]
    using hd

theorem finalEntry_bars_none (entry0 kwargs : Obj)
    (hbk : getKey? kwargs "bars" = none) (he : getKey? entry0 "bars" = none) :
    getKey? (finalEntry entry0 none kwargs) "bars" = none := by
  simp [finalEntry, applyLineTypes_bars_none kwargs entry0 hbk he]

theorem xaxisMode_setKey (o : Obj) :
    xaxisMode (setKey o "xaxis" timeOptVal) = some (.str "time") := by
  simp [xaxisMode, getKey?_setKey_self, timeOptVal, getKey?]

/-- C4: adding a non-empty series of temporal points stores every point
with its x component replaced by the platform calendar-to-seconds
conversion multiplied by 1000 as an exact integer, leaves every y
untouched, and afterwards the mode stored under the xaxis key of the
global options is the string time. -/
theorem C4_temporal (g : Flot) (pts : List Val) (label : Option String) (kwargs : Obj)
    (hne : pts ≠ [])
    (hp : ∀ p ∈ pts, ∃ s y, p = Val.list [Val.date s, y])
    (hlab : labelOK g label = true) :
    (add_series g (.list pts) label none kwargs).error = none ∧
    ((add_series g (.list pts) label none kwargs).state.series'.getLast?.bind
        fun e => getKey? e "data") = some (.list (pts.map convP)) ∧
    xaxisMode (add_series g (.list pts) label none kwargs).state.options'
      = some (.str "time") := by
  have hn := normalizeData_temporal pts hne hp
  have hfalsy : (!(Val.list pts).isInt && (Val.list pts).falsy) = false := by
    cases pts with
    | nil => exact absurd rfl hne
    | cons a l => simp [Val.isInt, Val.falsy]
  obtain ⟨e0, hdata, _, heq⟩ :=
    add_series_success g (.list pts) label none kwargs (.list (pts.map convP)) true hfalsy hn hlab
  rw [heq]
  refine ⟨rfl, ?_, ?_⟩
  · simp [getLast?_snoc, finalEntry_data_no_options e0 kwargs _ hdata]
  · simp [xaxisMode_setKey]

/-- Witness for C4: two datetime points with mktime seconds 5 and 6 are
stored as 5000 and 6000 milliseconds with their y values kept, and the
xaxis mode becomes time. -/
theorem C4_witness :
    (add_series ⟨[], []⟩ (.list [.list [.date 5, .int 7], .list [.date 6, .int 8]])
        (some "t") none []).error = none ∧
    ((add_series ⟨[], []⟩ (.list [.list [.date 5, .int 7], .list [.date 6, .int 8]])
        (some "t") none []).state.series'.getLast?.bind
        fun e => getKey? e "data")
      = some (.list [.list [.int 5000, .int 7], .list [.int 6000, .int 8]]) ∧
    xaxisMode (add_series ⟨[], []⟩ (.list [.list [.date 5, .int 7], .list [.date 6, .int 8]])
        (some "t") none []).state.options' = some (.str "time") := by
  obtain ⟨h1, h2, h3⟩ := C4_temporal ⟨[], []⟩ [.list [.date 5, .int 7], .list [.date 6, .int 8]]
    (some "t") [] (by simp)
    (by
      intro p hpm
      simp at hpm
      rcases hpm with rfl | rfl
      · exact ⟨5, .int 7, rfl⟩
      · exact ⟨6, .int 8, rfl⟩)
    (by rfl)
  refine ⟨h1, ?_, h3⟩
  simpa [convP] using h2

/-- C9: adding a non-empty series of numeric pairs without a bars hint
succeeds, stores the pairs verbatim, and any successful serialized series
view presents that series with exactly the same pairs in the same order. -/
theorem C9_roundtrip (g : Flot) (pts : List Val) (label : Option String) (kwargs : Obj)
    (hne : pts ≠ [])
    (hp : ∀ p ∈ pts, ∃ x y, p = Val.list [x, y] ∧ x.isNum = true)
    (hbk : getKey? kwargs "bars" = none)
    (hlab : labelOK g label = true) :
    (add_series g (.list pts) label none kwargs).error = none ∧
    ((add_series g (.list pts) label none kwargs).state.series'.getLast?.bind
        fun e => getKey? e "data") = some (.list pts) ∧
    ∀ v, seriesView (add_series g (.list pts) label none kwargs).state = some v →
      (v.getLast?.bind fun e => getKey? e "data") = some (.list pts) := by
  obtain ⟨p0, rest, rfl⟩ : ∃ p0 rest, pts = p0 :: rest := by
    cases pts with
    | nil => exact absurd rfl hne
    | cons a l => exact ⟨a, l, rfl⟩
  obtain ⟨x0, y0, hp0, hx0⟩ := hp p0 (by simp)
  have hxd : x0.isDate = false := by
    cases x0 <;> simp_all [Val.isNum, Val.isDate]
  have ht0 : Val.item0 p0 = some x0 := by rw [hp0]; rfl
  have hn := normalizeData_nontemporal p0 rest x0 ht0 hxd
  have hfalsy : (!(Val.list (p0 :: rest)).isInt && (Val.list (p0 :: rest)).falsy) = false := by
    simp [Val.isInt, Val.falsy]
  obtain ⟨e0, hdata, hbars0, heq⟩ :=
    add_series_success g (.list (p0 :: rest)) label none kwargs (.list (p0 :: rest)) false
      hfalsy hn hlab
  rw [heq]
  simp only [Bool.false_eq_true, if_false]
  have hedata : getKey? (finalEntry e0 none kwargs) "data" = some (.list (p0 :: rest)) :=
    finalEntry_data_no_options e0 kwargs _ hdata
  have hebars : getKey? (finalEntry e0 none kwargs) "bars" = none :=
    finalEntry_bars_none e0 kwargs hbk hbars0
  refine ⟨trivial, by simp [getLast?_snoc, hedata], ?_⟩
  intro v hv
  set st : Flot := ⟨g.series' ++ [finalEntry e0 none kwargs], g.options'⟩ with hst
  have hprep : prepare_series st (finalEntry e0 none kwargs) = some (finalEntry e0 none kwargs) := by
    simp [prepare_series, hebars]
  have hview : seriesView st
      = (mapO (prepare_series st) g.series').bind
          fun v1 => some (v1 ++ [finalEntry e0 none kwargs]) := by
    rw [seriesView]
    show mapO (prepare_series st) (g.series' ++ [finalEntry e0 none kwargs]) = _
    rw [mapO_append]
    simp [mapO, hprep]
  rw [hview] at hv
  cases h1 : mapO (prepare_series st) g.series' with
  | none => rw [h1] at hv; simp at hv
  | some v1 =>
    rw [h1] at hv
    simp only [Option.some_bind, Option.some.injEq] at hv
    subst hv
    simp [getLast?_snoc, hedata]

/-- Witness for C9: the pairs 1 to 2 and 3 to 4 round-trip verbatim
through add_series and the serialized series view. -/
theorem C9_witness :
    (add_series ⟨[], []⟩ (.list [.list [.int 1, .int 2], .list [.int 3, .int 4]])
        none none []).error = none ∧
    ((add_series ⟨[], []⟩ (.list [.list [.int 1, .int 2], .list [.int 3, .int 4]])
        none none []).state.series'.getLast?.bind
        fun e => getKey? e "data")
      = some (.list [.list [.int 1, .int 2], .list [.int 3, .int 4]]) ∧
    (seriesView (add_series ⟨[], []⟩ (.list [.list [.int 1, .int 2], .list [.int 3, .int 4]])
        none none []).state).bind (fun v => v.getLast?.bind fun e => getKey? e "data")
      = some (.list [.list [.int 1, .int 2], .list [.int 3, .int 4]]) := by
  obtain ⟨h1, h2, h3⟩ := C9_roundtrip ⟨[], []⟩
    [.list [.int 1, .int 2], .list [.int 3, .int 4]] none [] (by simp)
    (by
      intro p hpm
      simp at hpm
      rcases hpm with rfl | rfl
      · exact ⟨.int 1, .int 2, rfl, rfl⟩
      · exact ⟨.int 3, .int 4, rfl, rfl⟩)
    (by rfl) (by rfl)
  refine ⟨h1, h2, ?_⟩
  have hv := h3 [[("data", .list [.list [.int 1, .int 2], .list [.int 3, .int 4]])]] (by rfl)
  simpa using hv

/-! Bar width computation at serialization time. -/

/-- C1 counterexample: the claim says every bar series receives a
barWidth field equal to the range of x divided by slices; on a model
whose only bar series has all-identical x values that quotient is 0, the
code skips the falsy width, and the serialized entry carries no barWidth
key under bars. -/
theorem C1_counterexample :
    calculate_bar_width gBarZero = some 0 ∧
    seriesView gBarZero = some [[("data", dataZero), ("bars", barsShow)]] ∧
    getKey? [("show", Val.bool true)] "barWidth" = none := by
  have h0 : calculate_bar_width gBarZero = some ((0 - 0) / 2 : ℚ) := rfl
  have hz : ((0 : ℚ) - 0) / 2 = 0 := by norm_num
  refine ⟨by rw [h0, hz], ?_, rfl⟩
  show mapO (prepare_series gBarZero) gBarZero.series' = _
  have hp : prepare_series gBarZero [("data", dataZero), ("bars", barsShow)]
      = some [("data", dataZero), ("bars", barsShow)] := by
    rw [prepare_series]
    rw [show getKey? [("data", dataZero), ("bars", barsShow)] "bars" = some barsShow from rfl]
    rw [h0, hz]
    simp
  rw [show gBarZero.series' = [[("data", dataZero), ("bars", barsShow)]] from rfl]
  simp [mapO, hp]

/-- C1 as amended: whenever the bar-width computation succeeds with the
value w equal to the x range over all series divided by the largest point
count, serialization injects barWidth equal to that same w into the bars
dict of every entry carrying a bars hint, provided w is non-zero, and
leaves every entry without a bars hint untouched; when w is zero no entry
is modified at all. -/
theorem C1_bar_width (g : Flot) (w : ℚ)
    (hw : calculate_bar_width g = some w)
    (hbars : ∀ e ∈ g.series', ∀ v, getKey? e "bars" = some v → ∃ b, v = Val.obj b) :
    (w ≠ 0 → seriesView g = some (g.series'.map (injectW w))) ∧
    (w = 0 → seriesView g = some g.series') := by
  constructor
  · intro hw0
    show mapO (prepare_series g) g.series' = _
    apply mapO_eq_map
    intro e he
    cases hb : getKey? e "bars" with
    | none => simp [prepare_series, injectW, hb]
    | some bv =>
      obtain ⟨b, rfl⟩ := hbars e he bv hb
      simp [prepare_series, injectW, hb, hw, hw0]
  · intro hw0
    subst hw0
    show mapO (prepare_series g) g.series' = _
    have h := mapO_eq_map (prepare_series g) id g.series' ?_
    · simpa using h
    · intro e he
      cases hb : getKey? e "bars" with
      | none => simp [prepare_series, hb]
      | some bv => simp [prepare_series, hb, hw]

/-- Witness for C1 at the spec example: the three-point and two-point bar
series share xmin 0 and xmax 10, slices is 3, and both serialized entries
carry barWidth equal to 10 thirds. -/
theorem C1_witness :
    calculate_bar_width gBarEx = some (10 / 3) ∧
    ((10 : ℚ) / 3 ≠ 0) ∧
    seriesView gBarEx = some
      [[("data", dataEx1), ("bars", .obj [("show", .bool true), ("barWidth", .float (10 / 3))])],
        [("data", dataEx2), ("bars", .obj [("show", .bool true), ("barWidth", .float (10 / 3))])]] := by
  have h0 : calculate_bar_width gBarEx = some ((10 - 0) / 3 : ℚ) := rfl
  have hq : ((10 : ℚ) - 0) / 3 = 10 / 3 := by norm_num
  have hw : calculate_bar_width gBarEx = some (10 / 3) := by rw [h0, hq]
  have hne : (10 : ℚ) / 3 ≠ 0 := by norm_num
  have hb : ∀ e ∈ gBarEx.series', ∀ v, getKey? e "bars" = some v → ∃ b, v = Val.obj b := by
    intro e he v hv
    simp [gBarEx] at he
    rcases he with rfl | rfl <;>
      · simp [getKey?, barsShow] at hv
        exact ⟨_, hv.symm⟩
  have hview := (C1_bar_width gBarEx (10 / 3) hw hb).1 hne
  refine ⟨hw, hne, ?_⟩
  rw [hview]
  rfl

/-! Option resolution at construction time. -/

theorem keysNodup_cons (k : String) (v : Val) (rest : List (String × Val))
    (h : keysNodup ((k, v) :: rest) = true) :
    keysNodup rest = true ∧ ∀ kv ∈ rest, kv.1 ≠ k := by
  simp only [keysNodup, Bool.and_eq_true, Bool.not_eq_true', List.any_eq_false,
    beq_iff_eq] at h
  exact ⟨h.2, h.1⟩

theorem specMergeObj_disjoint (u : List (String × Val)) : ∀ d, keysNodup u = true →
    (∀ kv ∈ u, getKey? d kv.1 = none) → specMergeObj d u = d ++ u := by
  induction u with
  | nil => intro d _ _; simp [specMergeObj]
  | cons kv rest ih =>
    intro d hnd hdisj
    obtain ⟨k, v⟩ := kv
    obtain ⟨hrest, hne⟩ := keysNodup_cons k v rest hnd
    have hdk : getKey? d k = none := hdisj (k, v) (by simp)
    have hstep : specMergeObj d ((k, v) :: rest) = specMergeObj (setKey d k v) rest :=
      specMergeObj.eq_3 d k rest v fun dk uk hsome _ => by
        rw [hdk] at hsome
        exact Option.noConfusion hsome
    rw [hstep, setKey_absent d k v hdk]
    have hdisj2 : ∀ kv ∈ rest, getKey? (d ++ [(k, v)]) kv.1 = none := by
      intro kv2 hkv2
      rw [getKey?_append_of_absent _ _ _ (hdisj kv2 (by simp [hkv2]))]
      simp [getKey?, Ne.symm (hne kv2 hkv2)]
    rw [ih (d ++ [(k, v)]) hrest hdisj2, List.append_assoc]
    rfl

theorem specMergeObj_nil_of_nodup (u : List (String × Val)) (h : keysNodup u = true) :
    specMergeObj [] u = u :=
  specMergeObj_disjoint u [] h (fun _ _ => rfl)

theorem update_eq_spec (d u : List (String × Val)) (h : updCompat d u = true) :
    update (.obj d) u = some (.obj (specMergeObj d u)) := by
  induction d, u using updCompat.induct with
  | case1 d => simp [update, specMergeObj]
  | case2 d k rest o dk hdk ih1 ih2 =>
    rw [updCompat.eq_def] at h
    simp only [hdk, Bool.and_eq_true] at h
    rw [update.eq_def]
    simp only [hdk, Option.getD_some]
    rw [ih1 h.1]
    have hspec : specMergeObj d ((k, .obj o) :: rest)
        = specMergeObj (setKey d k (.obj (specMergeObj dk o))) rest :=
      specMergeObj.eq_2 d k rest dk o hdk
    rw [hspec]
    exact ih2 h.2
  | case3 d k rest o hdk ih1 ih2 =>
    rw [updCompat.eq_def] at h
    simp only [hdk, Bool.and_eq_true] at h
    obtain ⟨⟨h1, h2⟩, h3⟩ := h
    rw [update.eq_def]
    simp only [hdk, Option.getD_none]
    rw [ih1 h1, specMergeObj_nil_of_nodup o h2]
    have hspec : specMergeObj d ((k, .obj o) :: rest)
        = specMergeObj (setKey d k (.obj o)) rest :=
      specMergeObj.eq_3 d k rest (.obj o) fun dk uk hsome _ => by
        rw [hdk] at hsome
        exact Option.noConfusion hsome
    rw [hspec]
    exact ih2 h3
  | case4 d k rest o bv hbv hdk =>
    rw [updCompat.eq_def] at h
    simp only [hdk] at h
    exact absurd h (by simp)
  | case5 d k v rest hv ih =>
    simp only [updCompat, hv] at h
    simp only [update, hv]
    have hspec : specMergeObj d ((k, v) :: rest) = specMergeObj (setKey d k v) rest :=
      specMergeObj.eq_3 d k rest v fun dk uk _ hveq => hv uk hveq
    rw [hspec]
    exact ih h

theorem mro_fold_eq_spec (layers : List Obj) : ∀ d, foldCompat d layers = true →
    layers.foldlM (fun acc layer => update acc layer) (Val.obj d)
      = some (.obj (layers.foldl specMergeObj d)) := by
  induction layers with
  | nil => intro d _; rfl
  | cons l ls ih =>
    intro d h
    rw [foldCompat] at h
    simp only [Bool.and_eq_true] at h
    rw [List.foldlM_cons, update_eq_spec d l h.1]
    rw [List.foldl_cons]
    simpa using ih (specMergeObj d l) h.2

/-- C2 counterexample: the claim folds with a merge where a non-mapping
existing value is always replaced by the incoming value; the merge of the
code instead recurses whenever the incoming value is a mapping, so an
empty incoming dict arriving over the existing int 1 leaves the int in
place where the spec merge would replace it with the empty dict. -/
theorem C2_counterexample :
    FlotInit [[("a", .int 1)], [("a", .obj [])]] = some ⟨[], [("a", .int 1)]⟩ ∧
    List.foldl specMergeObj [] [[("a", .int 1)], [("a", .obj [])]] = [("a", .obj [])] ∧
    Val.int 1 ≠ Val.obj [] := by
  refine ⟨?_, ?_, by simp⟩
  · simp [FlotInit, mro_options_fold, update, getKey?, setKey]
  · simp [specMergeObj, getKey?, setKey]

/-- C2 as amended: on every chain of option layers on which the merge of
the code never lets an incoming dict value meet an existing non-dict
value (and incoming dicts placed at absent keys are duplicate-free), the
options resolved at construction equal the fold of the empty mapping
under the spec deep merge: recurse when both the existing and the
incoming values are mappings, replace otherwise. -/
theorem C2_option_merge (layers : List Obj) (h : foldCompat [] layers = true) :
    FlotInit layers = some ⟨[], layers.foldl specMergeObj []⟩ := by
  have h2 := mro_fold_eq_spec layers [] h
  simp [FlotInit, mro_options_fold, h2]

/-- Witness for C2 at the spec merge example: the base layer sets grid
show, the derived layer adds grid hoverable and the xaxis mode, and the
resolved options carry both grid keys and the xaxis mode. -/
theorem C2_witness :
    foldCompat [] exLayers = true ∧
    FlotInit exLayers = some ⟨[], exLayers.foldl specMergeObj []⟩ ∧
    exLayers.foldl specMergeObj []
      = [("grid", .obj [("show", .bool true), ("hoverable", .bool true)]),
          ("xaxis", .obj [("mode", .str "time")])] := by
  have hc : foldCompat [] exLayers = true := by
    simp [foldCompat, exLayers, updCompat, specMergeObj, keysNodup, getKey?, setKey]
  refine ⟨hc, C2_option_merge exLayers hc, ?_⟩
  simp [exLayers, specMergeObj, getKey?, setKey]

end PyFlot
